import Mathlib

/-!
Verification of the mathematical-expression parser and evaluator
(`parser.py` and `evaluator.py`).

The Python code is shallowly embedded as executable Lean definitions.
Machine doubles are modelled as exact rationals (`Value.num`); a double
whose exact value the rational model does not track (irrational constants,
transcendental function results, non-finite values) is abstracted to
`Value.untracked`, and a complex number (which Python produces for a
negative base raised to a non-integral power) to `Value.cplx`.
Error behaviour (Python exceptions) is modelled exactly on tracked values:
float division by a zero divisor raises `ZeroDivisionError`, the
`math` module functions raise `ValueError` (math domain error) outside
their real domain, and raise `TypeError` on complex arguments.
Float rounding, overflow and subnormal underflow are outside the model;
none of the theorems below depend on them.
-/

namespace MathExpr

/-- Enumeration of token kinds, mirroring `TokenType` in `parser.py`. -/
inductive TokenType where
  | NUMBER
  | VARIABLE
  | OPERATOR
  | FUNCTION
  | LEFT_PAREN
  | RIGHT_PAREN
  | COMMA
  | CONSTANT
  | EOF
deriving DecidableEq, Repr

/-- A token: kind, raw lexeme, and position, mirroring `Token` in `parser.py`. -/
structure Token where
  type : TokenType
  value : String
  position : Nat
deriving DecidableEq, Repr

/-- The parser's function-name set (`MathParser.__init__`). -/
def functionNames : List String :=
  ["sin", "cos", "tan", "asin", "acos", "atan",
   "sinh", "cosh", "tanh", "ln", "log", "exp",
   "sqrt", "abs", "floor", "ceil", "round",
   "derivative", "integral", "diff", "int"]

/-- The parser's constant-name set (`MathParser.__init__`). -/
def constantNames : List String :=
  ["pi", "e", "phi", "gamma", "inf", "nan"]

/-- Operator associativity, mirroring the `'associativity'` field. -/
inductive OpAssoc where
  | left
  | right
deriving DecidableEq, Repr

/-- Operator descriptor: precedence and associativity. -/
structure OpInfo where
  precedence : Nat
  associativity : OpAssoc
deriving DecidableEq, Repr

/-- The parser's operator table (`MathParser.__init__`). -/
def operators : String → Option OpInfo
  | "+" => some ⟨1, .left⟩
  | "-" => some ⟨1, .left⟩
  | "*" => some ⟨2, .left⟩
  | "/" => some ⟨2, .left⟩
  | "^" => some ⟨3, .right⟩
  | "**" => some ⟨3, .right⟩
  | _ => none

/-- Membership test for the characters Python treats as decimal digits here
(ASCII digits; the claims only exercise ASCII input). -/
def isDigitChar (c : Char) : Bool := c.isDigit

/-- Python `char.isalpha()` restricted to ASCII letters. -/
def isAlphaChar (c : Char) : Bool := c.isAlpha

/-- Identifier-continuation characters: `isalnum() or '_'`. -/
def isIdentChar (c : Char) : Bool := c.isAlphanum || c == '_'

/-- `MathParser._parse_number`: scan digits, at most one dot, and an
optional scientific suffix.  Returns the consumed lexeme and the rest.
The scientific branch fires only when at least one character follows the
`e`, and then consumes the `e`, an optional sign and trailing digits,
exactly as the Python loop does. -/
def parseNumber : List Char → Bool → List Char × List Char
  | [], _ => ([], [])
  | c :: cs, hasDec =>
    if isDigitChar c then
      let r := parseNumber cs hasDec
      (c :: r.1, r.2)
    else if c == '.' && !hasDec then
      let r := parseNumber cs true
      (c :: r.1, r.2)
    else if (c == 'e' || c == 'E') && !cs.isEmpty then
      match cs with
      | d :: ds =>
        if d == '+' || d == '-' then
          (c :: d :: ds.takeWhile isDigitChar, ds.dropWhile isDigitChar)
        else
          (c :: cs.takeWhile isDigitChar, cs.dropWhile isDigitChar)
      | [] => ([], c :: cs)
    else
      ([], c :: cs)

/-- The token-scanning loop of `MathParser.tokenize`, over the
whitespace-stripped character list.  `fuel` bounds the number of loop
iterations; since every iteration advances the cursor by at least one
character, `fuel = cs.length` reproduces the Python loop exactly. -/
def tokenizeGo : Nat → List Char → Nat → List Token
  | _, [], pos => [Token.mk .EOF "" pos]
  | 0, _ :: _, pos => [Token.mk .EOF "" pos]
  | fuel + 1, c :: cs, pos =>
    if isDigitChar c || c == '.' then
      let r := parseNumber (c :: cs) false
      Token.mk .NUMBER (String.mk r.1) pos :: tokenizeGo fuel r.2 (pos + r.1.length)
    else if isAlphaChar c then
      let ident := (c :: cs).takeWhile isIdentChar
      let rest := (c :: cs).dropWhile isIdentChar
      let idStr := String.mk ident
      let ty : TokenType :=
        if functionNames.contains idStr then .FUNCTION
        else if constantNames.contains idStr then .CONSTANT
        else .VARIABLE
      Token.mk ty idStr pos :: tokenizeGo fuel rest (pos + ident.length)
    else if c == '+' || c == '-' || c == '*' || c == '/' || c == '^' then
      match c, cs with
      | '*', '*' :: cs' =>
        Token.mk .OPERATOR "**" pos :: tokenizeGo fuel cs' (pos + 2)
      | _, _ =>
        Token.mk .OPERATOR (String.mk [c]) pos :: tokenizeGo fuel cs (pos + 1)
    else if c == '(' then
      Token.mk .LEFT_PAREN "(" pos :: tokenizeGo fuel cs (pos + 1)
    else if c == ')' then
      Token.mk .RIGHT_PAREN ")" pos :: tokenizeGo fuel cs (pos + 1)
    else if c == ',' then
      Token.mk .COMMA "," pos :: tokenizeGo fuel cs (pos + 1)
    else
      tokenizeGo fuel cs (pos + 1)

/-- `MathParser.tokenize`: strip spaces (`expression.replace(' ', '')`),
then scan; positions are offsets into the stripped character sequence. -/
def tokenize (expression : String) : List Token :=
  let cs := expression.toList.filter (fun c => c != ' ')
  tokenizeGo cs.length cs 0

/-- The checks performed after the token loop of `MathParser.validate_syntax`:
final parenthesis balance, then the trailing-operator rule. -/
def validateFinish (parenCount : Int) (prev : Option Token) : Bool × String :=
  let prevIsOp : Bool :=
    match prev with
    | some pt => pt.type == .OPERATOR
    | none => false
  if parenCount != 0 then
    (false, "Unmatched parentheses")
  else if prevIsOp then
    (false, "Expression cannot end with an operator")
  else
    (true, "")

/-- The token loop of `MathParser.validate_syntax`: one left-to-right pass
carrying the running parenthesis counter and the previous token; each
token is checked for negative balance (on a closing parenthesis), then
consecutive operators, then function placement. -/
def validateLoop : List Token → Int → Option Token → Bool × String
  | [], parenCount, prev => validateFinish parenCount prev
  | t :: ts, parenCount, prev =>
    if t.type == .EOF then
      validateFinish parenCount prev
    else
      let pc :=
        if t.type == .LEFT_PAREN then parenCount + 1
        else if t.type == .RIGHT_PAREN then parenCount - 1
        else parenCount
      let prevIsOp : Bool :=
        match prev with
        | some pt => pt.type == .OPERATOR
        | none => false
      let prevBlocksFn : Bool :=
        match prev with
        | some pt =>
          !(pt.type == .OPERATOR || pt.type == .LEFT_PAREN || pt.type == .COMMA)
        | none => false
      if t.type == .RIGHT_PAREN && pc < 0 then
        (false, "Unmatched closing parenthesis at position " ++ toString t.position)
      else if prevIsOp && t.type == .OPERATOR then
        (false, "Consecutive operators at position " ++ toString t.position)
      else if t.type == .FUNCTION && prevBlocksFn then
        (false, "Invalid function call at position " ++ toString t.position)
      else
        validateLoop ts pc (some t)

/-- `MathParser.validate_syntax`: empty check, then the single-pass loop. -/
def validateSyntax (tokens : List Token) : Bool × String :=
  let headIsEOF : Bool :=
    match tokens.head? with
    | some t => t.type == .EOF
    | none => false
  if tokens.isEmpty || headIsEOF then
    (false, "Empty expression")
  else
    validateLoop tokens 0 none

/-- `MathParser._has_higher_precedence`: true when `op1` binds at least
as tightly as `op2`, with ties broken by the associativity of `op2`. -/
def hasHigherPrecedence (op1 op2 : Token) : Bool :=
  match operators op1.value, operators op2.value with
  | some d1, some d2 =>
    decide (d1.precedence > d2.precedence) ||
      (decide (d1.precedence = d2.precedence) && decide (d2.associativity = .left))
  | _, _ => false

/-- The `while` loop used for COMMA and RIGHT_PAREN in
`MathParser.parse_to_postfix`: pop stack entries to the output until a
left parenthesis is on top (or the stack is exhausted).
Returns the remaining stack and the extended output. -/
def popUntilLParen : List Token → List Token → List Token × List Token
  | [], output => ([], output)
  | t :: ts, output =>
    if t.type == .LEFT_PAREN then (t :: ts, output)
    else popUntilLParen ts (output ++ [t])

/-- The `while` loop of the OPERATOR case in `MathParser.parse_to_postfix`:
pop operators of higher (or tying left-associative) precedence. -/
def popWhileHigher : List Token → List Token → Token → List Token × List Token
  | [], output, _ => ([], output)
  | t :: ts, output, tok =>
    if t.type == .OPERATOR && hasHigherPrecedence t tok then
      popWhileHigher ts (output ++ [t]) tok
    else (t :: ts, output)

/-- The token loop of `MathParser.parse_to_postfix` (Shunting Yard) with
explicit output and operator stack; the loop breaks at the first EOF
token, and afterwards the remaining stack is drained to the output. -/
def parseToPostfixGo : List Token → List Token → List Token → List Token
  | [], output, stack => output ++ stack
  | t :: ts, output, stack =>
    if t.type == .EOF then
      output ++ stack
    else if t.type == .NUMBER || t.type == .VARIABLE || t.type == .CONSTANT then
      parseToPostfixGo ts (output ++ [t]) stack
    else if t.type == .FUNCTION then
      parseToPostfixGo ts output (t :: stack)
    else if t.type == .COMMA then
      let r := popUntilLParen stack output
      parseToPostfixGo ts r.2 r.1
    else if t.type == .OPERATOR then
      let r := popWhileHigher stack output t
      parseToPostfixGo ts r.2 (t :: r.1)
    else if t.type == .LEFT_PAREN then
      parseToPostfixGo ts output (t :: stack)
    else if t.type == .RIGHT_PAREN then
      let r := popUntilLParen stack output
      match r.1.tail with
      | f :: rest =>
        if f.type == .FUNCTION then parseToPostfixGo ts (r.2 ++ [f]) rest
        else parseToPostfixGo ts r.2 (f :: rest)
      | [] => parseToPostfixGo ts r.2 []
    else
      parseToPostfixGo ts output stack

/-- `MathParser.parse_to_postfix`. -/
def parseToPostfix (tokens : List Token) : List Token :=
  parseToPostfixGo tokens [] []

/-- Evaluation-time value, abstracting a Python number.  `num q` is a
double tracked exactly as the rational `q`; `untracked` is a real double
the rational model does not track (irrational constants, transcendental
results, non-finite values); `cplx` is a complex number. -/
inductive Value where
  | num (q : ℚ)
  | untracked
  | cplx
deriving DecidableEq, Repr

/-- The Python exceptions `MathEvaluator.evaluate_postfix` can raise,
either explicitly (`ValueError` with the corresponding message) or from
the arithmetic itself (`ZeroDivisionError`, `math` domain `ValueError`,
`TypeError` for complex arguments to `math` functions, `ValueError` from
a failed `float()` conversion). -/
inductive EvalErr where
  | undefinedVariable (name : String)
  | unknownConstant (name : String)
  | insufficientOperands (op : String)
  | unknownOperator (op : String)
  | insufficientArguments (fn : String)
  | unknownFunction (fn : String)
  | malformedExpression
  | zeroDivision
  | mathDomain
  | typeErr
  | floatConv
deriving DecidableEq, Repr

/-- Numeric value of a (possibly empty) run of decimal digits. -/
def digitsToNat (cs : List Char) : Nat :=
  cs.foldl (fun acc c => acc * 10 + (c.toNat - '0'.toNat)) 0

/-- Python `float()` applied to a lexeme produced by the number scanner:
optional integer digits, an optional dot with fraction digits, and an
optional exponent (requiring at least one exponent digit).  At least one
digit must appear in the mantissa.  Returns `none` where `float()` raises
`ValueError` (e.g. on `"2e"` or `"."`). -/
def pyFloat? (s : String) : Option ℚ :=
  let cs := s.toList
  let intPart := cs.takeWhile isDigitChar
  let rest1 := cs.dropWhile isDigitChar
  let (fracPart, rest2) :=
    match rest1 with
    | '.' :: r => (r.takeWhile isDigitChar, r.dropWhile isDigitChar)
    | _ => ([], rest1)
  let (expOk, expVal, rest3) :=
    match rest2 with
    | 'e' :: r | 'E' :: r =>
      let (sign, r') :=
        match r with
        | '+' :: r' => ((1 : Int), r')
        | '-' :: r' => ((-1 : Int), r')
        | _ => ((1 : Int), r)
      let digs := r'.takeWhile isDigitChar
      (!digs.isEmpty, sign * (digitsToNat digs : Int), r'.dropWhile isDigitChar)
    | _ => (true, (0 : Int), rest2)
  if rest3.isEmpty && expOk && !(intPart.isEmpty && fracPart.isEmpty) then
    let mant : ℚ := (digitsToNat intPart : ℚ) +
      (digitsToNat fracPart : ℚ) / (10 : ℚ) ^ fracPart.length
    some (mant * (10 : ℚ) ^ expVal)
  else
    none

/-- Python's banker's rounding (`round`): half-integral values go to the
even neighbour, others to the nearest integer. -/
def pyRound (q : ℚ) : ℤ :=
  if q - ⌊q⌋ = 1 / 2 then (if ⌊q⌋ % 2 = 0 then ⌊q⌋ else ⌊q⌋ + 1)
  else round q

/-- `x + y` on Python numbers (never raises; complex absorbs). -/
def pyAdd : Value → Value → Value
  | .num a, .num b => .num (a + b)
  | .cplx, _ => .cplx
  | _, .cplx => .cplx
  | _, _ => .untracked

/-- `x - y` on Python numbers. -/
def pySub : Value → Value → Value
  | .num a, .num b => .num (a - b)
  | .cplx, _ => .cplx
  | _, .cplx => .cplx
  | _, _ => .untracked

/-- `x * y` on Python numbers. -/
def pyMul : Value → Value → Value
  | .num a, .num b => .num (a * b)
  | .cplx, _ => .cplx
  | _, .cplx => .cplx
  | _, _ => .untracked

/-- `x / y` on Python numbers: a tracked zero divisor raises
`ZeroDivisionError`; a division by an untracked or complex divisor is
assumed non-raising (no claim exercises an untracked zero divisor). -/
def pyDiv (x y : Value) : Except EvalErr Value :=
  match y with
  | .num b =>
    if b = 0 then .error .zeroDivision
    else
      match x with
      | .num a => .ok (.num (a / b))
      | .untracked => .ok .untracked
      | .cplx => .ok .cplx
  | .untracked =>
    match x with
    | .cplx => .ok .cplx
    | _ => .ok .untracked
  | .cplx => .ok .cplx

/-- `x ** y` on Python numbers: a negative tracked base with a
non-integral tracked exponent yields a complex number; a tracked zero
base with a negative exponent raises `ZeroDivisionError`; an integral
exponent is computed exactly; otherwise the (positive-base, fractional
power) result is untracked.  Overflow is outside the model. -/
def pyPow (x y : Value) : Except EvalErr Value :=
  match x, y with
  | .num a, .num b =>
    if a < 0 && !b.isInt then .ok .cplx
    else if a = 0 && b < 0 then .error .zeroDivision
    else if b.isInt then .ok (.num (a ^ b.num))
    else if a = 0 then .ok (.num 0)
    else .ok .untracked
  | .cplx, _ => .ok .cplx
  | _, .cplx => .ok .cplx
  | _, _ => .ok .untracked

/-- The operator table of `MathEvaluator.__init__` as a lookup from the
lexeme to the corresponding binary operation. -/
def evalOperators : String → Option (Value → Value → Except EvalErr Value)
  | "+" => some (fun x y => .ok (pyAdd x y))
  | "-" => some (fun x y => .ok (pySub x y))
  | "*" => some (fun x y => .ok (pyMul x y))
  | "/" => some pyDiv
  | "^" => some pyPow
  | "**" => some pyPow
  | _ => none

/-- `math.sqrt`: raises on a tracked negative argument, `TypeError` on a
complex argument; nonneg results are untracked reals. -/
def pySqrt : Value → Except EvalErr Value
  | .num a => if a < 0 then .error .mathDomain else .ok .untracked
  | .untracked => .ok .untracked
  | .cplx => .error .typeErr

/-- `math.log` and `math.log10`: raise on a tracked non-positive argument. -/
def pyLog : Value → Except EvalErr Value
  | .num a => if a ≤ 0 then .error .mathDomain else .ok .untracked
  | .untracked => .ok .untracked
  | .cplx => .error .typeErr

/-- `math.asin` and `math.acos`: raise outside the tracked interval. -/
def pyArc : Value → Except EvalErr Value
  | .num a => if a < -1 || 1 < a then .error .mathDomain else .ok .untracked
  | .untracked => .ok .untracked
  | .cplx => .error .typeErr

/-- Total `math` functions (`sin`, `cos`, `tan`, `atan`, the hyperbolics,
`exp`): never raise on reals (overflow outside the model). -/
def pyTotal : Value → Except EvalErr Value
  | .cplx => .error .typeErr
  | _ => .ok .untracked

/-- The built-in `abs`: exact on tracked reals, defined on complex too. -/
def pyAbs : Value → Except EvalErr Value
  | .num a => .ok (.num |a|)
  | .untracked => .ok .untracked
  | .cplx => .ok .untracked

/-- `math.floor`. -/
def pyFloor : Value → Except EvalErr Value
  | .num a => .ok (.num ⌊a⌋)
  | .untracked => .ok .untracked
  | .cplx => .error .typeErr

/-- `math.ceil`. -/
def pyCeil : Value → Except EvalErr Value
  | .num a => .ok (.num ⌈a⌉)
  | .untracked => .ok .untracked
  | .cplx => .error .typeErr

/-- The built-in `round` (banker's rounding). -/
def pyRoundFn : Value → Except EvalErr Value
  | .num a => .ok (.num (pyRound a))
  | .untracked => .ok .untracked
  | .cplx => .error .typeErr

/-- The function table of `MathEvaluator.__init__` as a lookup from the
function name to the corresponding unary operation. -/
def evalFunctions : String → Option (Value → Except EvalErr Value)
  | "sin" => some pyTotal
  | "cos" => some pyTotal
  | "tan" => some pyTotal
  | "asin" => some pyArc
  | "acos" => some pyArc
  | "atan" => some pyTotal
  | "sinh" => some pyTotal
  | "cosh" => some pyTotal
  | "tanh" => some pyTotal
  | "ln" => some pyLog
  | "log" => some pyLog
  | "exp" => some pyTotal
  | "sqrt" => some pySqrt
  | "abs" => some pyAbs
  | "floor" => some pyFloor
  | "ceil" => some pyCeil
  | "round" => some pyRoundFn
  | _ => none

/-- The hard-coded arity-1 dispatch list inside the FUNCTION branch of
`MathEvaluator.evaluate_postfix`; it coincides with the keys of the
function table, so the multi-argument `pass` branch is dead code. -/
def arity1Names : List String :=
  ["sin", "cos", "tan", "asin", "acos", "atan",
   "sinh", "cosh", "tanh", "ln", "log", "exp",
   "sqrt", "abs", "floor", "ceil", "round"]

/-- The constant table of `MathEvaluator.__init__`.  All six values are
doubles the rational model does not track exactly (`pi`, `e`, `phi`,
`gamma` are irrational, `inf` and `nan` non-finite). -/
def evalConstants : String → Option Value
  | "pi" => some .untracked
  | "e" => some .untracked
  | "phi" => some .untracked
  | "gamma" => some .untracked
  | "inf" => some .untracked
  | "nan" => some .untracked
  | _ => none

/-- The token loop of `MathEvaluator.evaluate_postfix` with an explicit
value stack (head is the top).  Mirrors the Python branch structure,
including the dead multi-argument `pass` branch for a function name in
the table but outside the arity-1 list. -/
def evaluatePostfixGo (vars : List (String × ℚ)) :
    List Token → List Value → Except EvalErr Value
  | [], stack =>
    match stack with
    | [v] => .ok v
    | _ => .error .malformedExpression
  | t :: ts, stack =>
    match t.type with
    | .NUMBER =>
      match pyFloat? t.value with
      | some q => evaluatePostfixGo vars ts (.num q :: stack)
      | none => .error .floatConv
    | .VARIABLE =>
      match vars.lookup t.value with
      | some q => evaluatePostfixGo vars ts (.num q :: stack)
      | none => .error (.undefinedVariable t.value)
    | .CONSTANT =>
      match evalConstants t.value with
      | some v => evaluatePostfixGo vars ts (v :: stack)
      | none => .error (.unknownConstant t.value)
    | .OPERATOR =>
      match stack with
      | b :: a :: rest =>
        match evalOperators t.value with
        | some f =>
          match f a b with
          | .ok v => evaluatePostfixGo vars ts (v :: rest)
          | .error e => .error e
        | none => .error (.unknownOperator t.value)
      | _ => .error (.insufficientOperands t.value)
    | .FUNCTION =>
      match evalFunctions t.value with
      | some f =>
        if arity1Names.contains t.value then
          match stack with
          | arg :: rest =>
            match f arg with
            | .ok v => evaluatePostfixGo vars ts (v :: rest)
            | .error e => .error e
          | [] => .error (.insufficientArguments t.value)
        else
          evaluatePostfixGo vars ts stack
      | none => .error (.unknownFunction t.value)
    | _ => evaluatePostfixGo vars ts stack

/-- `MathEvaluator.evaluate_postfix`. -/
def evaluatePostfix (postfixTokens : List Token) (vars : List (String × ℚ)) :
    Except EvalErr Value :=
  evaluatePostfixGo vars postfixTokens []

/-- The failure modes of the full pipeline: a validation failure carries
the validator's message, an evaluation failure the raised exception. -/
inductive ExprError where
  | parseErr (msg : String)
  | evalErr (e : EvalErr)
deriving DecidableEq, Repr

/-- `MathParser.parse_expression`: tokenize, validate, convert. -/
def parseExpression (expression : String) :
    Except String (List Token × List Token) :=
  let tokens := tokenize expression
  let r := validateSyntax tokens
  if r.1 then .ok (tokens, parseToPostfix tokens) else .error r.2

/-- `MathEvaluator.evaluate_expression`: the full pipeline, returning the
first failure as a tagged error (the Python code catches the evaluation
exceptions and reports them in an error dictionary). -/
def evaluateExpression (expression : String) (vars : List (String × ℚ)) :
    Except ExprError Value :=
  match parseExpression expression with
  | .error msg => .error (.parseErr msg)
  | .ok r =>
    match evaluatePostfix r.2 vars with
    | .ok v => .ok v
    | .error e => .error (.evalErr e)

/-! ### Claims C1 to C6 -/

/-- Claim C1, as stated, is false: Python float division raises
`ZeroDivisionError` when the right operand is zero, so `"1/0"` fails with
an error instead of producing an IEEE infinity. -/
theorem c1_counterexample_one_div_zero :
    evaluateExpression "1/0" [] = .error (.evalErr .zeroDivision) := by
  with_unfolding_all rfl

/-- Claim C1 amended: whenever the evaluator applies the division
operator with a right operand equal to zero, the evaluation fails with a
`ZeroDivisionError`, regardless of the left operand and of the remaining
tokens. -/
theorem c1_amended_div_zero_error (t : Token) (ht : t.type = .OPERATOR)
    (hv : t.value = "/") (vars : List (String × ℚ)) (ts : List Token)
    (a : Value) (st : List Value) :
    evaluatePostfixGo vars (t :: ts) (Value.num 0 :: a :: st) =
      .error .zeroDivision := by
  rcases t with ⟨ty, v, p⟩
  simp only at ht hv
  subst ht hv
  simp [evaluatePostfixGo, evalOperators, pyDiv]

/-- Witness for the amended C1 at the concrete operator token of `1/0`. -/
theorem c1_amended_div_zero_error_witness :
    (Token.mk .OPERATOR "/" 1).type = .OPERATOR ∧
    evaluatePostfixGo [] [Token.mk .OPERATOR "/" 1]
        [Value.num 0, Value.num 1] = .error .zeroDivision :=
  ⟨rfl, c1_amended_div_zero_error (Token.mk .OPERATOR "/" 1) rfl rfl []
    [] (Value.num 1) []⟩

/-- Claim C2, as stated, is false: the `math` module raises `ValueError`
(math domain error) outside a function's real domain, so `sqrt` of a
negative number and `ln` of zero fail with errors instead of returning
NaN. -/
theorem c2_counterexample_domain_error :
    evaluateExpression "sqrt(0-1)" [] = .error (.evalErr .mathDomain) ∧
    evaluateExpression "ln(0)" [] = .error (.evalErr .mathDomain) := by
  constructor <;> with_unfolding_all rfl

/-- Claim C2 amended: a unary function applied to a tracked argument
outside its mathematical domain (`sqrt` of a negative, `ln` or `log` of a
non-positive) makes the evaluation fail with the math-domain
`ValueError`, not return NaN. -/
theorem c2_amended_domain_error (t : Token) (ht : t.type = .FUNCTION)
    (q : ℚ) (vars : List (String × ℚ)) (ts : List Token) (st : List Value)
    (h : (t.value = "sqrt" ∧ q < 0) ∨
         ((t.value = "ln" ∨ t.value = "log") ∧ q ≤ 0)) :
    evaluatePostfixGo vars (t :: ts) (Value.num q :: st) =
      .error .mathDomain := by
  rcases t with ⟨ty, v, p⟩
  simp only at ht
  subst ht
  rcases h with ⟨hv, hq⟩ | ⟨hv | hv, hq⟩ <;> simp only at hv <;> subst hv <;>
    simp [evaluatePostfixGo, evalFunctions, arity1Names, pySqrt, pyLog, hq]

/-- Witness for the amended C2 at the concrete token of `sqrt` applied
to the tracked value `-1`. -/
theorem c2_amended_domain_error_witness :
    (Token.mk .FUNCTION "sqrt" 0).type = .FUNCTION ∧ (-1 : ℚ) < 0 ∧
    evaluatePostfixGo [] [Token.mk .FUNCTION "sqrt" 0] [Value.num (-1)] =
      .error .mathDomain :=
  ⟨rfl, by norm_num,
    c2_amended_domain_error (Token.mk .FUNCTION "sqrt" 0) rfl (-1) [] [] []
      (Or.inl ⟨rfl, by norm_num⟩)⟩

/-- Claim C3, as stated, is false: the tokenizer has no unary minus, so
`"sqrt(-1)"` parses as `sqrt` applied to a lone binary `-` with a single
operand, and evaluation fails with an insufficient-operands error rather
than returning NaN. -/
theorem c3_counterexample_sqrt_neg_one :
    evaluateExpression "sqrt(-1)" [] =
      .error (.evalErr (.insufficientOperands "-")) := by
  rfl

/-- Claim C3 amended: `"sqrt(-1)"` passes syntax validation but its
evaluation fails with an insufficient-operands error for the `-`
operator; it does not evaluate to NaN. -/
theorem c3_amended_sqrt_neg_one_insufficient :
    (validateSyntax (tokenize "sqrt(-1)")).1 = true ∧
    evaluatePostfix (parseToPostfix (tokenize "sqrt(-1)")) [] =
      .error (.insufficientOperands "-") := by
  exact ⟨rfl, rfl⟩

/-- Claim C4, as stated, is false: Python promotes a negative float base
raised to a non-integral exponent to a complex number, so a successful
evaluation need not be a real double; `"(0-8)^0.5"` succeeds with a
complex result. -/
theorem c4_counterexample_complex_result :
    evaluateExpression "(0-8)^0.5" [] = .ok Value.cplx := by
  with_unfolding_all rfl

/-- Claim C4 amended: applying `^` or `**` to a tracked negative base
with a tracked non-integral exponent pushes a complex value (Python's
complex promotion, matching the declared return type
`Union[float, int, complex]`), and evaluation continues with it. -/
theorem c4_amended_pow_neg_frac_complex (t : Token) (ht : t.type = .OPERATOR)
    (hv : t.value = "^" ∨ t.value = "**") (a b : ℚ) (ha : a < 0)
    (hb : b.isInt = false) (vars : List (String × ℚ)) (ts : List Token)
    (st : List Value) :
    evaluatePostfixGo vars (t :: ts) (Value.num b :: Value.num a :: st) =
      evaluatePostfixGo vars ts (Value.cplx :: st) := by
  rcases t with ⟨ty, v, p⟩
  simp only at ht
  subst ht
  rcases hv with hv | hv <;> simp only at hv <;> subst hv <;>
    simp [evaluatePostfixGo, evalOperators, pyPow, ha, hb]

/-- Witness for the amended C4 with base `-8` and exponent `1/2`. -/
theorem c4_amended_pow_neg_frac_complex_witness :
    (-8 : ℚ) < 0 ∧ (1 / 2 : ℚ).isInt = false ∧
    evaluatePostfixGo [] [Token.mk .OPERATOR "^" 5]
        [Value.num (1 / 2), Value.num (-8)] =
      evaluatePostfixGo [] [] [Value.cplx] :=
  ⟨by norm_num, by with_unfolding_all rfl,
    c4_amended_pow_neg_frac_complex (Token.mk .OPERATOR "^" 5) rfl
      (Or.inl rfl) (-8) (1 / 2) (by norm_num) (by with_unfolding_all rfl) [] [] []⟩

/-- Claim C5, as stated, is false: the validator is a single left-to-right
pass, so an earlier pair of consecutive operators is reported even when a
later unmatched closing parenthesis is present, contrary to the claimed
fixed rule order. -/
theorem c5_counterexample_first_violation :
    validateSyntax (tokenize "1++2)") =
      (false, "Consecutive operators at position 2") ∧
    "Consecutive operators at position 2" ≠
      "Unmatched closing parenthesis at position 4" := by
  exact ⟨rfl, by decide⟩

/-- Claim C5 amended: the validator reports the violation of the earliest
offending token of its single pass (checking, per token, negative balance,
then consecutive operators, then function placement); in particular a
consecutive-operator pair is reported regardless of any later violation in
the remaining tokens, such as an unmatched closing parenthesis. -/
theorem c5_amended_earliest_token_wins (t1 t2 t3 : Token)
    (rest : List Token) (h1 : t1.type = .NUMBER) (h2 : t2.type = .OPERATOR)
    (h3 : t3.type = .OPERATOR) :
    validateSyntax (t1 :: t2 :: t3 :: rest) =
      (false, "Consecutive operators at position " ++ toString t3.position) := by
  simp [validateSyntax, validateLoop, h1, h2, h3]

/-- Witness for the amended C5 on the tokens of `1++2)`, whose later
tokens contain an unmatched closing parenthesis. -/
theorem c5_amended_earliest_token_wins_witness :
    (Token.mk .NUMBER "1" 0).type = .NUMBER ∧
    validateSyntax [Token.mk .NUMBER "1" 0, Token.mk .OPERATOR "+" 1,
        Token.mk .OPERATOR "+" 2, Token.mk .NUMBER "2" 3,
        Token.mk .RIGHT_PAREN ")" 4, Token.mk .EOF "" 5] =
      (false, "Consecutive operators at position 2") :=
  ⟨rfl, c5_amended_earliest_token_wins (Token.mk .NUMBER "1" 0)
    (Token.mk .OPERATOR "+" 1) (Token.mk .OPERATOR "+" 2)
    [Token.mk .NUMBER "2" 3, Token.mk .RIGHT_PAREN ")" 4, Token.mk .EOF "" 5]
    rfl rfl rfl⟩

/-- Non-structural tokens: the kinds the converter emits to its output
(values, operators and functions). -/
def isOutputKind (t : Token) : Bool :=
  t.type == .NUMBER || t.type == .VARIABLE || t.type == .CONSTANT ||
    t.type == .OPERATOR || t.type == .FUNCTION

/-- Number of left-parenthesis tokens in an operator stack. -/
def lpCount (st : List Token) : Int :=
  (st.countP (fun t => t.type == .LEFT_PAREN) : Int)

/-- Parenthesis discipline of a token list (read up to the first EOF),
relative to a number `k` of currently open parentheses: every closing
parenthesis finds an open one and all parentheses are closed at the end. -/
def balOk : List Token → Int → Bool
  | [], k => k == 0
  | t :: ts, k =>
    if t.type == .EOF then k == 0
    else if t.type == .LEFT_PAREN then balOk ts (k + 1)
    else if t.type == .RIGHT_PAREN then decide (1 ≤ k) && balOk ts (k - 1)
    else balOk ts k

/-- A successful final check of the validator forces a zero balance. -/
theorem validateFinish_true (k : Int) (prev : Option Token)
    (h : (validateFinish k prev).1 = true) : k = 0 := by
  by_cases hk : k = 0
  · exact hk
  · exfalso
    simp [validateFinish, hk] at h

/-- A token list accepted by the validator loop satisfies the parenthesis
discipline starting from the loop's running balance. -/
theorem validateLoop_balOk : ∀ (ts : List Token) (k : Int) (prev : Option Token),
    (validateLoop ts k prev).1 = true → balOk ts k = true := by
  intro ts
  induction ts with
  | nil =>
    intro k prev h
    have hk := validateFinish_true k prev (by simpa [validateLoop] using h)
    simp [balOk, hk]
  | cons t ts ih =>
    intro k prev h
    simp only [validateLoop] at h
    cases ht : t.type with
    | EOF =>
      rw [ht] at h
      simp at h
      have hk := validateFinish_true k prev h
      simp [balOk, ht, hk]
    | LEFT_PAREN =>
      rw [ht] at h
      simp at h
      simp [balOk, ht]
      exact ih _ _ h
    | RIGHT_PAREN =>
      rw [ht] at h
      simp at h
      split at h
      · simp at h
      · rename_i hneg
        simp only [balOk, ht]
        simp [ih _ _ h]
        omega
    | OPERATOR =>
      rw [ht] at h
      simp at h
      split at h
      · simp at h
      · simp [balOk, ht]
        exact ih _ _ h
    | FUNCTION =>
      rw [ht] at h
      simp at h
      split at h
      · simp at h
      · simp [balOk, ht]
        exact ih _ _ h
    | NUMBER =>
      rw [ht] at h
      simp at h
      simp [balOk, ht]
      exact ih _ _ h
    | VARIABLE =>
      rw [ht] at h
      simp at h
      simp [balOk, ht]
      exact ih _ _ h
    | CONSTANT =>
      rw [ht] at h
      simp at h
      simp [balOk, ht]
      exact ih _ _ h
    | COMMA =>
      rw [ht] at h
      simp at h
      simp [balOk, ht]
      exact ih _ _ h

/-- A token list accepted by `validateSyntax` satisfies the parenthesis
discipline from a zero balance. -/
theorem validateSyntax_balOk (ts : List Token)
    (h : (validateSyntax ts).1 = true) : balOk ts 0 = true := by
  by_cases hempty : (ts.isEmpty || (match ts.head? with
      | some t => t.type == TokenType.EOF
      | none => false)) = true
  · simp [validateSyntax, hempty] at h
  · simp only [validateSyntax, hempty, if_false, Bool.false_eq_true] at h
    exact validateLoop_balOk ts 0 none h

/-- Behaviour of the pop-until-left-parenthesis loop: it moves a prefix
of non-left-parenthesis stack entries to the output, and stops either on
an empty stack or with a left parenthesis on top. -/
theorem popUntilLParen_spec : ∀ (st out : List Token),
    ∃ popped,
      (popUntilLParen st out).2 = out ++ popped ∧
      st = popped ++ (popUntilLParen st out).1 ∧
      (∀ x ∈ popped, x.type ≠ .LEFT_PAREN) ∧
      (∀ lp rest, (popUntilLParen st out).1 = lp :: rest →
        lp.type = .LEFT_PAREN) := by
  intro st
  induction st with
  | nil =>
    intro out
    refine ⟨[], by simp [popUntilLParen], by simp [popUntilLParen], by simp, ?_⟩
    intro lp rest hr
    simp [popUntilLParen] at hr
  | cons t ts ih =>
    intro out
    by_cases hlp : t.type = .LEFT_PAREN
    · refine ⟨[], ?_, ?_, by simp, ?_⟩
      · simp [popUntilLParen, hlp]
      · simp [popUntilLParen, hlp]
      · intro lp rest hr
        simp [popUntilLParen, hlp] at hr
        rw [← hr.1]
        exact hlp
    · obtain ⟨popped, h1, h2, h3, h4⟩ := ih (out ++ [t])
      have hred : popUntilLParen (t :: ts) out = popUntilLParen ts (out ++ [t]) := by
        simp [popUntilLParen, hlp]
      refine ⟨t :: popped, ?_, ?_, ?_, ?_⟩
      · rw [hred, h1]
        simp
      · rw [hred]
        simpa using h2
      · intro x hx
        rcases List.mem_cons.mp hx with rfl | hx
        · exact hlp
        · exact h3 x hx
      · intro lp rest hr
        rw [hred] at hr
        exact h4 lp rest hr

/-- Behaviour of the operator-pop loop: it moves a prefix of operator
stack entries to the output. -/
theorem popWhileHigher_spec : ∀ (st out : List Token) (tok : Token),
    ∃ popped,
      (popWhileHigher st out tok).2 = out ++ popped ∧
      st = popped ++ (popWhileHigher st out tok).1 ∧
      (∀ x ∈ popped, x.type = .OPERATOR) := by
  intro st
  induction st with
  | nil =>
    intro out tok
    exact ⟨[], by simp [popWhileHigher], by simp [popWhileHigher], by simp⟩
  | cons t ts ih =>
    intro out tok
    by_cases hcond : (t.type == TokenType.OPERATOR && hasHigherPrecedence t tok) = true
    · obtain ⟨popped, h1, h2, h3⟩ := ih (out ++ [t]) tok
      have hred : popWhileHigher (t :: ts) out tok = popWhileHigher ts (out ++ [t]) tok := by
        simp [popWhileHigher, hcond]
      refine ⟨t :: popped, ?_, ?_, ?_⟩
      · rw [hred, h1]
        simp
      · rw [hred]
        simpa using h2
      · intro x hx
        rcases List.mem_cons.mp hx with rfl | hx
        · have := (Bool.and_eq_true _ _).mp hcond
          exact beq_iff_eq.mp this.1
        · exact h3 x hx
    · have hred : popWhileHigher (t :: ts) out tok = (t :: ts, out) := by
        simp only [popWhileHigher]
        rw [if_neg]
        simpa using hcond
      exact ⟨[], by simp [hred], by simp [hred], by simp⟩

/-- Token predicate: not a left parenthesis. -/
def notLP (t : Token) : Bool := !(t.type == TokenType.LEFT_PAREN)

/-- Token predicate: not an EOF marker. -/
def notEOF (t : Token) : Bool := !(t.type == TokenType.EOF)

theorem lpCount_nil : lpCount [] = 0 := rfl

theorem lpCount_nonneg (l : List Token) : 0 ≤ lpCount l := by
  simp [lpCount]

theorem lpCount_cons (t : Token) (l : List Token) :
    lpCount (t :: l) = lpCount l +
      (if t.type = TokenType.LEFT_PAREN then 1 else 0) := by
  simp only [lpCount, List.countP_cons]
  by_cases h : t.type = TokenType.LEFT_PAREN <;> simp [h]

theorem lpCount_append (l1 l2 : List Token) :
    lpCount (l1 ++ l2) = lpCount l1 + lpCount l2 := by
  simp [lpCount, List.countP_append]

theorem lpCount_eq_zero (l : List Token)
    (h : ∀ x ∈ l, x.type ≠ TokenType.LEFT_PAREN) : lpCount l = 0 := by
  simp only [lpCount]
  norm_cast
  rw [List.countP_eq_zero]
  intro x hx
  simp [h x hx]

theorem lpCount_zero_no_lp (l : List Token) (h : lpCount l = 0) :
    ∀ x ∈ l, x.type ≠ TokenType.LEFT_PAREN := by
  intro x hx
  simp only [lpCount] at h
  norm_cast at h
  have := List.countP_eq_zero.mp h x hx
  simpa using this

theorem filter_notLP_eq_self (l : List Token)
    (h : ∀ x ∈ l, x.type ≠ TokenType.LEFT_PAREN) : l.filter notLP = l := by
  rw [List.filter_eq_self]
  intro x hx
  simp [notLP, h x hx]

/-- Multiset content of the Shunting-Yard loop: the output plus the
non-parenthesis stack entries plus the still-unprocessed non-structural
tokens are conserved by every step, so the final output is exactly the
non-structural input tokens.  Requires the parenthesis discipline of the
remaining input relative to the open parentheses on the stack. -/
theorem parseToPostfixGo_ms : ∀ (ts out st : List Token),
    balOk ts (lpCount st) = true →
    (↑(parseToPostfixGo ts out st) : Multiset Token) =
      ↑out + ↑(st.filter notLP) + ↑((ts.takeWhile notEOF).filter isOutputKind) := by
  intro ts
  induction ts with
  | nil =>
    intro out st hbal
    have h0 : lpCount st = 0 := by simpa [balOk] using hbal
    have hf : st.filter notLP = st :=
      filter_notLP_eq_self st (lpCount_zero_no_lp st h0)
    simp only [parseToPostfixGo, List.takeWhile_nil, List.filter_nil, hf]
    simp [← Multiset.coe_add]
  | cons t ts ih =>
    intro out st hbal
    cases ht : t.type with
    | EOF =>
      have h0 : lpCount st = 0 := by simpa [balOk, ht] using hbal
      have hf : st.filter notLP = st :=
        filter_notLP_eq_self st (lpCount_zero_no_lp st h0)
      have hstep : parseToPostfixGo (t :: ts) out st = out ++ st := by
        simp [parseToPostfixGo, ht]
      have htw : (t :: ts).takeWhile notEOF = [] := by
        simp [List.takeWhile_cons, notEOF, ht]
      rw [hstep, htw]
      simp only [List.filter_nil, hf]
      simp [← Multiset.coe_add]
    | NUMBER =>
      have hbal' : balOk ts (lpCount st) = true := by
        simpa [balOk, ht] using hbal
      have hstep : parseToPostfixGo (t :: ts) out st =
          parseToPostfixGo ts (out ++ [t]) st := by
        simp [parseToPostfixGo, ht]
      rw [hstep, ih _ _ hbal']
      have htw : (t :: ts).takeWhile notEOF = t :: ts.takeWhile notEOF := by
        simp [List.takeWhile_cons, notEOF, ht]
      rw [htw, List.filter_cons_of_pos (by simp [isOutputKind, ht])]
      simp only [← Multiset.coe_add, ← Multiset.cons_coe, ← Multiset.singleton_add]
      abel
    | VARIABLE =>
      have hbal' : balOk ts (lpCount st) = true := by
        simpa [balOk, ht] using hbal
      have hstep : parseToPostfixGo (t :: ts) out st =
          parseToPostfixGo ts (out ++ [t]) st := by
        simp [parseToPostfixGo, ht]
      rw [hstep, ih _ _ hbal']
      have htw : (t :: ts).takeWhile notEOF = t :: ts.takeWhile notEOF := by
        simp [List.takeWhile_cons, notEOF, ht]
      rw [htw, List.filter_cons_of_pos (by simp [isOutputKind, ht])]
      simp only [← Multiset.coe_add, ← Multiset.cons_coe, ← Multiset.singleton_add]
      abel
    | CONSTANT =>
      have hbal' : balOk ts (lpCount st) = true := by
        simpa [balOk, ht] using hbal
      have hstep : parseToPostfixGo (t :: ts) out st =
          parseToPostfixGo ts (out ++ [t]) st := by
        simp [parseToPostfixGo, ht]
      rw [hstep, ih _ _ hbal']
      have htw : (t :: ts).takeWhile notEOF = t :: ts.takeWhile notEOF := by
        simp [List.takeWhile_cons, notEOF, ht]
      rw [htw, List.filter_cons_of_pos (by simp [isOutputKind, ht])]
      simp only [← Multiset.coe_add, ← Multiset.cons_coe, ← Multiset.singleton_add]
      abel
    | FUNCTION =>
      have hbal' : balOk ts (lpCount st) = true := by
        simpa [balOk, ht] using hbal
      have hlpc : lpCount (t :: st) = lpCount st := by
        rw [lpCount_cons]
        simp [ht]
      have hstep : parseToPostfixGo (t :: ts) out st =
          parseToPostfixGo ts out (t :: st) := by
        simp [parseToPostfixGo, ht]
      rw [hstep, ih _ _ (by rw [hlpc]; exact hbal')]
      rw [List.filter_cons_of_pos (by simp [notLP, ht])]
      have htw : (t :: ts).takeWhile notEOF = t :: ts.takeWhile notEOF := by
        simp [List.takeWhile_cons, notEOF, ht]
      rw [htw, List.filter_cons_of_pos (by simp [isOutputKind, ht])]
      simp only [← Multiset.coe_add, ← Multiset.cons_coe, ← Multiset.singleton_add]
      abel
    | LEFT_PAREN =>
      have hlpc : lpCount (t :: st) = lpCount st + 1 := by
        rw [lpCount_cons]
        simp [ht]
      have hbal' : balOk ts (lpCount st + 1) = true := by
        simpa [balOk, ht] using hbal
      have hstep : parseToPostfixGo (t :: ts) out st =
          parseToPostfixGo ts out (t :: st) := by
        simp [parseToPostfixGo, ht]
      rw [hstep, ih _ _ (by rw [hlpc]; exact hbal')]
      rw [List.filter_cons_of_neg (by simp [notLP, ht])]
      have htw : (t :: ts).takeWhile notEOF = t :: ts.takeWhile notEOF := by
        simp [List.takeWhile_cons, notEOF, ht]
      rw [htw, List.filter_cons_of_neg (by simp [isOutputKind, ht])]
    | COMMA =>
      have hbal' : balOk ts (lpCount st) = true := by
        simpa [balOk, ht] using hbal
      obtain ⟨popped, h1, h2, h3, _⟩ := popUntilLParen_spec st out
      have hp0 : lpCount popped = 0 := lpCount_eq_zero popped h3
      have hlpr : lpCount (popUntilLParen st out).1 = lpCount st := by
        conv_rhs => rw [h2]
        rw [lpCount_append, hp0]
        ring
      have hstep : parseToPostfixGo (t :: ts) out st =
          parseToPostfixGo ts (popUntilLParen st out).2 (popUntilLParen st out).1 := by
        simp [parseToPostfixGo, ht]
      rw [hstep, ih _ _ (by rw [hlpr]; exact hbal'), h1]
      have hsf : st.filter notLP =
          popped ++ (popUntilLParen st out).1.filter notLP := by
        conv_lhs => rw [h2]
        rw [List.filter_append, filter_notLP_eq_self popped h3]
      rw [hsf]
      have htw : (t :: ts).takeWhile notEOF = t :: ts.takeWhile notEOF := by
        simp [List.takeWhile_cons, notEOF, ht]
      rw [htw, List.filter_cons_of_neg (by simp [isOutputKind, ht])]
      simp only [← Multiset.coe_add, ← Multiset.cons_coe, ← Multiset.singleton_add]
      abel
    | OPERATOR =>
      have hbal' : balOk ts (lpCount st) = true := by
        simpa [balOk, ht] using hbal
      obtain ⟨popped, h1, h2, h3⟩ := popWhileHigher_spec st out t
      have hp0 : lpCount popped = 0 :=
        lpCount_eq_zero popped (fun x hx => by simp [h3 x hx])
      have hlpr : lpCount (popWhileHigher st out t).1 = lpCount st := by
        conv_rhs => rw [h2]
        rw [lpCount_append, hp0]
        ring
      have hlpc : lpCount (t :: (popWhileHigher st out t).1) = lpCount st := by
        rw [lpCount_cons]
        simp [ht, hlpr]
      have hstep : parseToPostfixGo (t :: ts) out st =
          parseToPostfixGo ts (popWhileHigher st out t).2
            (t :: (popWhileHigher st out t).1) := by
        simp [parseToPostfixGo, ht]
      rw [hstep, ih _ _ (by rw [hlpc]; exact hbal'), h1]
      rw [List.filter_cons_of_pos (by simp [notLP, ht])]
      have hsf : st.filter notLP =
          popped ++ (popWhileHigher st out t).1.filter notLP := by
        conv_lhs => rw [h2]
        rw [List.filter_append,
          filter_notLP_eq_self popped (fun x hx => by simp [h3 x hx])]
      rw [hsf]
      have htw : (t :: ts).takeWhile notEOF = t :: ts.takeWhile notEOF := by
        simp [List.takeWhile_cons, notEOF, ht]
      rw [htw, List.filter_cons_of_pos (by simp [isOutputKind, ht])]
      simp only [← Multiset.coe_add, ← Multiset.cons_coe, ← Multiset.singleton_add]
      abel
    | RIGHT_PAREN =>
      have hk : 1 ≤ lpCount st ∧ balOk ts (lpCount st - 1) = true := by
        have := hbal
        simp [balOk, ht] at this
        exact this
      obtain ⟨popped, h1, h2, h3, h4⟩ := popUntilLParen_spec st out
      have hp0 : lpCount popped = 0 := lpCount_eq_zero popped h3
      have hlpr : lpCount (popUntilLParen st out).1 = lpCount st := by
        conv_rhs => rw [h2]
        rw [lpCount_append, hp0]
        ring
      have htw : (t :: ts).takeWhile notEOF = t :: ts.takeWhile notEOF := by
        simp [List.takeWhile_cons, notEOF, ht]
      cases hr1 : (popUntilLParen st out).1 with
      | nil =>
        exfalso
        rw [hr1, lpCount_nil] at hlpr
        have := hk.1
        omega
      | cons lp rest =>
        have hlp : lp.type = TokenType.LEFT_PAREN := h4 lp rest hr1
        have hrest : lpCount rest = lpCount st - 1 := by
          rw [hr1, lpCount_cons] at hlpr
          simp [hlp] at hlpr
          omega
        have hsf : st.filter notLP = popped ++ rest.filter notLP := by
          conv_lhs => rw [h2]
          rw [List.filter_append, filter_notLP_eq_self popped h3, hr1,
            List.filter_cons_of_neg (by simp [notLP, hlp])]
        cases rest with
        | nil =>
          have hstep : parseToPostfixGo (t :: ts) out st =
              parseToPostfixGo ts (popUntilLParen st out).2 [] := by
            simp [parseToPostfixGo, ht, hr1]
          have hbal0 : balOk ts (lpCount ([] : List Token)) = true := by
            have h0 : lpCount ([] : List Token) = lpCount st - 1 := hrest
            rw [h0]
            exact hk.2
          have htf : List.filter isOutputKind (t :: List.takeWhile notEOF ts) =
              List.filter isOutputKind (List.takeWhile notEOF ts) :=
            List.filter_cons_of_neg (by simp [isOutputKind, ht])
          rw [hstep, ih _ _ hbal0, h1, hsf]
          rw [htw, htf]
          simp only [List.filter_nil, ← Multiset.coe_add, ← Multiset.cons_coe,
            ← Multiset.singleton_add]
          abel
        | cons f rest2 =>
          by_cases hf : f.type = TokenType.FUNCTION
          · have hstep : parseToPostfixGo (t :: ts) out st =
                parseToPostfixGo ts ((popUntilLParen st out).2 ++ [f]) rest2 := by
              simp [parseToPostfixGo, ht, hr1, hf]
            have hbal2 : balOk ts (lpCount rest2) = true := by
              have hcr : lpCount (f :: rest2) = lpCount rest2 := by
                rw [lpCount_cons]
                simp [hf]
              rw [← hcr, hrest]
              exact hk.2
            have hff : List.filter notLP (f :: rest2) = f :: List.filter notLP rest2 :=
              List.filter_cons_of_pos (by simp [notLP, hf])
            have htf : List.filter isOutputKind (t :: List.takeWhile notEOF ts) =
                List.filter isOutputKind (List.takeWhile notEOF ts) :=
              List.filter_cons_of_neg (by simp [isOutputKind, ht])
            rw [hstep, ih _ _ hbal2, h1, hsf, hff]
            rw [htw, htf]
            simp only [← Multiset.coe_add, ← Multiset.cons_coe,
              ← Multiset.singleton_add]
            abel
          · have hstep : parseToPostfixGo (t :: ts) out st =
                parseToPostfixGo ts (popUntilLParen st out).2 (f :: rest2) := by
              simp [parseToPostfixGo, ht, hr1, hf]
            have hbal2 : balOk ts (lpCount (f :: rest2)) = true := by
              rw [hrest]
              exact hk.2
            have htf : List.filter isOutputKind (t :: List.takeWhile notEOF ts) =
                List.filter isOutputKind (List.takeWhile notEOF ts) :=
              List.filter_cons_of_neg (by simp [isOutputKind, ht])
            rw [hstep, ih _ _ hbal2, h1, hsf]
            rw [htw, htf]
            simp only [← Multiset.coe_add, ← Multiset.cons_coe,
              ← Multiset.singleton_add]
            abel

/-- The number scanner splits its input: lexeme plus rest is the input. -/
theorem parseNumber_append : ∀ (cs : List Char) (hasDec : Bool),
    (parseNumber cs hasDec).1 ++ (parseNumber cs hasDec).2 = cs := by
  intro cs
  induction cs with
  | nil => intro hasDec; rfl
  | cons c cs ih =>
    intro hasDec
    simp only [parseNumber]
    split
    · simpa using ih hasDec
    · split
      · simpa using ih true
      · split
        · split
          · split
            · simp [List.takeWhile_append_dropWhile]
            · simp [List.takeWhile_append_dropWhile]
          · rfl
        · rfl

/-- Lifting the located-lexeme property over one consumed chunk of the
input: if a token of the tail scan (starting after `adv` consumed
characters) carries its lexeme at its position, it also does relative to
the full input. -/
theorem positions_step (cs consumed rest : List Char) (pos adv : Nat) (t : Token)
    (hsplit : cs = consumed ++ rest) (hadv : consumed.length = adv)
    (h : pos + adv ≤ t.position ∧
      (rest.drop (t.position - (pos + adv))).take t.value.length = t.value.toList) :
    pos ≤ t.position ∧
      (cs.drop (t.position - pos)).take t.value.length = t.value.toList := by
  obtain ⟨h1, h2⟩ := h
  refine ⟨by omega, ?_⟩
  rw [hsplit]
  have harith : t.position - pos = consumed.length + (t.position - (pos + adv)) := by
    omega
  rw [harith, List.drop_append]
  exact h2

/-- The located-lexeme property for a token emitted at the current
cursor: its lexeme is an initial segment of the remaining input. -/
theorem positions_head (cs lex rest : List Char) (pos : Nat)
    (hsplit : cs = lex ++ rest) :
    pos ≤ pos ∧
      (cs.drop (pos - pos)).take (String.mk lex).length = (String.mk lex).toList := by
  refine ⟨le_refl _, ?_⟩
  rw [hsplit]
  simp only [Nat.sub_self, List.drop_zero]
  exact List.take_left lex rest

/-- Every non-EOF token emitted by the scanner carries a position at
which its lexeme occurs in the scanned character sequence (relative to
the starting cursor `pos`). -/
theorem tokenizeGo_positions : ∀ (fuel : Nat) (cs : List Char) (pos : Nat) (t : Token),
    t ∈ tokenizeGo fuel cs pos → t.type ≠ TokenType.EOF →
    pos ≤ t.position ∧
      (cs.drop (t.position - pos)).take t.value.length = t.value.toList := by
  intro fuel
  induction fuel with
  | zero =>
    intro cs pos t htm hne
    exfalso
    apply hne
    cases cs with
    | nil =>
      simp only [tokenizeGo, List.mem_singleton] at htm
      rw [htm]
    | cons c cs' =>
      simp only [tokenizeGo, List.mem_singleton] at htm
      rw [htm]
  | succ fuel ih =>
    intro cs pos t htm hne
    cases cs with
    | nil =>
      exfalso
      apply hne
      simp only [tokenizeGo, List.mem_singleton] at htm
      rw [htm]
    | cons c cs' =>
      simp only [tokenizeGo] at htm
      by_cases h1 : (isDigitChar c || c == '.') = true
      · rw [if_pos h1] at htm
        rcases List.mem_cons.mp htm with rfl | htm
        · exact positions_head _ _ _ pos (parseNumber_append (c :: cs') false).symm
        · exact positions_step _ _ _ pos _ t
            (parseNumber_append (c :: cs') false).symm rfl (ih _ _ t htm hne)
      · rw [if_neg (by simpa using h1)] at htm
        by_cases h2 : isAlphaChar c = true
        · rw [if_pos h2] at htm
          rcases List.mem_cons.mp htm with rfl | htm
          · exact positions_head _ _ _ pos
              (List.takeWhile_append_dropWhile isIdentChar (c :: cs')).symm
          · exact positions_step _ _ _ pos _ t
              (List.takeWhile_append_dropWhile isIdentChar (c :: cs')).symm
              rfl (ih _ _ t htm hne)
        · rw [if_neg (by simpa using h2)] at htm
          by_cases h3 : (c == '+' || c == '-' || c == '*' || c == '/' || c == '^') = true
          · rw [if_pos h3] at htm
            revert htm
            split
            · intro htm
              rcases List.mem_cons.mp htm with rfl | htm
              · refine ⟨le_refl _, ?_⟩
                simp only [Nat.sub_self, List.drop_zero]
                rfl
              · exact positions_step _ ['*', '*'] _ pos 2 t rfl rfl
                  (ih _ _ t htm hne)
            · intro htm
              rcases List.mem_cons.mp htm with rfl | htm
              · exact positions_head _ [c] cs' pos rfl
              · exact positions_step _ [c] cs' pos 1 t rfl rfl (ih _ _ t htm hne)
          · rw [if_neg (by simpa using h3)] at htm
            by_cases h4 : (c == '(') = true
            · rw [if_pos h4] at htm
              have hc : c = '(' := by simpa using h4
              subst hc
              rcases List.mem_cons.mp htm with rfl | htm
              · exact positions_head _ ['('] cs' pos rfl
              · exact positions_step _ ['('] cs' pos 1 t rfl rfl (ih _ _ t htm hne)
            · rw [if_neg (by simpa using h4)] at htm
              by_cases h5 : (c == ')') = true
              · rw [if_pos h5] at htm
                have hc : c = ')' := by simpa using h5
                subst hc
                rcases List.mem_cons.mp htm with rfl | htm
                · exact positions_head _ [')'] cs' pos rfl
                · exact positions_step _ [')'] cs' pos 1 t rfl rfl (ih _ _ t htm hne)
              · rw [if_neg (by simpa using h5)] at htm
                by_cases h6 : (c == ',') = true
                · rw [if_pos h6] at htm
                  have hc : c = ',' := by simpa using h6
                  subst hc
                  rcases List.mem_cons.mp htm with rfl | htm
                  · exact positions_head _ [','] cs' pos rfl
                  · exact positions_step _ [','] cs' pos 1 t rfl rfl (ih _ _ t htm hne)
                · rw [if_neg (by simpa using h6)] at htm
                  exact positions_step _ [c] cs' pos 1 t rfl rfl (ih _ _ t htm hne)

/-- Prepending a non-EOF token preserves the body-then-EOF structure. -/
theorem structure_cons (tok : Token) (hne : tok.type ≠ TokenType.EOF)
    (l : List Token)
    (h : ∃ body p, l = body ++ [Token.mk .EOF "" p] ∧
      ∀ t ∈ body, t.type ≠ TokenType.EOF) :
    ∃ body p, tok :: l = body ++ [Token.mk .EOF "" p] ∧
      ∀ t ∈ body, t.type ≠ TokenType.EOF := by
  obtain ⟨body, p, rfl, hb⟩ := h
  refine ⟨tok :: body, p, by simp, ?_⟩
  intro t htm
  rcases List.mem_cons.mp htm with rfl | htm
  · exact hne
  · exact hb t htm

/-- The token scanner always produces a list of non-EOF tokens followed
by exactly one final EOF token. -/
theorem tokenizeGo_structure : ∀ (fuel : Nat) (cs : List Char) (pos : Nat),
    ∃ body p, tokenizeGo fuel cs pos = body ++ [Token.mk .EOF "" p] ∧
      ∀ t ∈ body, t.type ≠ TokenType.EOF := by
  intro fuel
  induction fuel with
  | zero =>
    intro cs pos
    cases cs with
    | nil => exact ⟨[], pos, rfl, by simp⟩
    | cons c cs' => exact ⟨[], pos, rfl, by simp⟩
  | succ fuel ih =>
    intro cs pos
    cases cs with
    | nil => exact ⟨[], pos, rfl, by simp⟩
    | cons c cs' =>
      simp only [tokenizeGo]
      split
      · exact structure_cons _ (by simp) _ (ih _ _)
      · split
        · refine structure_cons _ ?_ _ (ih _ _)
          dsimp only
          split
          · simp
          · split <;> simp
        · split
          · split
            · exact structure_cons _ (by simp) _ (ih _ _)
            · exact structure_cons _ (by simp) _ (ih _ _)
          · split
            · exact structure_cons _ (by simp) _ (ih _ _)
            · split
              · exact structure_cons _ (by simp) _ (ih _ _)
              · split
                · exact structure_cons _ (by simp) _ (ih _ _)
                · exact ih _ _

/-- A list of tokens all satisfying `notEOF`, followed by one EOF token,
has the former as its `takeWhile notEOF` prefix. -/
theorem takeWhile_all_append (l : List Token) (t : Token)
    (hl : ∀ x ∈ l, notEOF x = true) (ht : notEOF t = false) :
    (l ++ [t]).takeWhile notEOF = l := by
  induction l with
  | nil => simp [List.takeWhile_cons, ht]
  | cons a l ih =>
    have ha : notEOF a = true := hl a (by simp)
    simp only [List.cons_append, List.takeWhile_cons, ha, if_true]
    rw [ih (fun x hx => hl x (by simp [hx]))]

/-- `tokenize` output: a body of non-EOF tokens, one final EOF token,
and the body is exactly the `takeWhile notEOF` prefix. -/
theorem tokenize_structure (s : String) :
    ∃ body p, tokenize s = body ++ [Token.mk .EOF "" p] ∧
      (∀ t ∈ body, t.type ≠ TokenType.EOF) ∧
      (tokenize s).takeWhile notEOF = body := by
  obtain ⟨body, p, heq, hne⟩ :=
    tokenizeGo_structure (s.toList.filter (fun c => c != ' ')).length
      (s.toList.filter (fun c => c != ' ')) 0
  have heq' : tokenize s = body ++ [Token.mk .EOF "" p] := heq
  refine ⟨body, p, heq', hne, ?_⟩
  rw [heq']
  exact takeWhile_all_append body _
    (fun x hx => by simp [notEOF, hne x hx]) (by simp [notEOF])

/-- For a validated token list, the converter output consists exactly of
the non-structural tokens before the first EOF, as a multiset. -/
theorem parseToPostfix_ms_valid (ts : List Token)
    (h : (validateSyntax ts).1 = true) :
    (↑(parseToPostfix ts) : Multiset Token) =
      ↑((ts.takeWhile notEOF).filter isOutputKind) := by
  have hbal := validateSyntax_balOk ts h
  have hms := parseToPostfixGo_ms ts [] [] (by simpa [lpCount] using hbal)
  simpa [parseToPostfix] using hms

/-- The count of output-kind tokens splits into value, operator, and
function counts (the three kinds are mutually exclusive). -/
theorem countP_outputKind_split (l : List Token) :
    l.countP isOutputKind =
      l.countP (fun t => t.type == TokenType.NUMBER ||
        t.type == TokenType.VARIABLE || t.type == TokenType.CONSTANT) +
      l.countP (fun t => t.type == TokenType.OPERATOR) +
      l.countP (fun t => t.type == TokenType.FUNCTION) := by
  induction l with
  | nil => rfl
  | cons t l ih =>
    simp only [List.countP_cons]
    cases ht : t.type <;> simp [isOutputKind, ht] <;> omega

/-- The part of a token the evaluator inspects: its kind and lexeme
(positions are only used in parser error messages). -/
def core (t : Token) : TokenType × String := (t.type, t.value)

/-- Evaluation depends only on the kinds and lexemes of the tokens, not
on their positions. -/
theorem evaluatePostfixGo_congr (vars : List (String × ℚ)) :
    ∀ (ts ts' : List Token), ts.map core = ts'.map core →
    ∀ stack, evaluatePostfixGo vars ts stack = evaluatePostfixGo vars ts' stack := by
  intro ts
  induction ts with
  | nil =>
    intro ts' h stack
    cases ts' with
    | nil => rfl
    | cons t' ts2 => simp at h
  | cons t ts ih =>
    intro ts' h stack
    cases ts' with
    | nil => simp at h
    | cons t' ts2 =>
      simp only [List.map_cons, List.cons.injEq] at h
      obtain ⟨hcore, htail⟩ := h
      rcases t with ⟨ty, v, p⟩
      rcases t' with ⟨ty', v', p'⟩
      simp only [core, Prod.mk.injEq] at hcore
      obtain ⟨hty, hv⟩ := hcore
      subst hty hv
      cases ty with
      | NUMBER =>
        simp only [evaluatePostfixGo]
        cases pyFloat? v with
        | some q => exact ih ts2 htail _
        | none => rfl
      | VARIABLE =>
        simp only [evaluatePostfixGo]
        cases vars.lookup v with
        | some q => exact ih ts2 htail _
        | none => rfl
      | CONSTANT =>
        simp only [evaluatePostfixGo]
        cases evalConstants v with
        | some w => exact ih ts2 htail _
        | none => rfl
      | OPERATOR =>
        simp only [evaluatePostfixGo]
        cases stack with
        | nil => rfl
        | cons x rest =>
          cases rest with
          | nil => rfl
          | cons y rest2 =>
            dsimp only
            cases evalOperators v with
            | some f =>
              dsimp only
              cases f y x with
              | ok w => exact ih ts2 htail _
              | error e => rfl
            | none => rfl
      | FUNCTION =>
        simp only [evaluatePostfixGo]
        cases evalFunctions v with
        | some f =>
          by_cases hmem : arity1Names.contains v
          · simp only [hmem, if_true]
            cases stack with
            | nil => rfl
            | cons x rest =>
              dsimp only
              cases f x with
              | ok w => exact ih ts2 htail _
              | error e => rfl
          · simp only [Bool.not_eq_true] at hmem
            simp only [hmem, Bool.false_eq_true, if_false]
            exact ih ts2 htail _
        | none => rfl
      | LEFT_PAREN => exact ih ts2 htail _
      | RIGHT_PAREN => exact ih ts2 htail _
      | COMMA => exact ih ts2 htail _
      | EOF => exact ih ts2 htail _

/-- Claim C7: for token sequences of the forms `a OP1 b OP2 c` and
`a OP1 ( b OP2 c )` with numeric literals `a`, `b`, `c` and operators
whose precedences satisfy `precedence(OP2) > precedence(OP1)`, the two
evaluations agree: the tighter operator binds first. -/
theorem c7_precedence_law (a b c o1 o2 : String) (d1 d2 : OpInfo)
    (h1 : operators o1 = some d1) (h2 : operators o2 = some d2)
    (hp : d1.precedence < d2.precedence)
    (pa p1 pb p2 pc pe qa q1 ql qb q2 qc qr qe : Nat)
    (vars : List (String × ℚ)) :
    evaluatePostfix (parseToPostfix
        [Token.mk .NUMBER a pa, Token.mk .OPERATOR o1 p1,
         Token.mk .NUMBER b pb, Token.mk .OPERATOR o2 p2,
         Token.mk .NUMBER c pc, Token.mk .EOF "" pe]) vars =
    evaluatePostfix (parseToPostfix
        [Token.mk .NUMBER a qa, Token.mk .OPERATOR o1 q1,
         Token.mk .LEFT_PAREN "(" ql, Token.mk .NUMBER b qb,
         Token.mk .OPERATOR o2 q2, Token.mk .NUMBER c qc,
         Token.mk .RIGHT_PAREN ")" qr, Token.mk .EOF "" qe]) vars := by
  have hgt : ¬d1.precedence > d2.precedence := by omega
  have heq : ¬d1.precedence = d2.precedence := by omega
  have hh : hasHigherPrecedence (Token.mk .OPERATOR o1 p1)
      (Token.mk .OPERATOR o2 p2) = false := by
    simp [hasHigherPrecedence, h1, h2, hgt, heq]
  have lhs : parseToPostfix
      [Token.mk .NUMBER a pa, Token.mk .OPERATOR o1 p1,
       Token.mk .NUMBER b pb, Token.mk .OPERATOR o2 p2,
       Token.mk .NUMBER c pc, Token.mk .EOF "" pe] =
      [Token.mk .NUMBER a pa, Token.mk .NUMBER b pb, Token.mk .NUMBER c pc,
       Token.mk .OPERATOR o2 p2, Token.mk .OPERATOR o1 p1] := by
    simp [parseToPostfix, parseToPostfixGo, popWhileHigher, hh]
  have rhs : parseToPostfix
      [Token.mk .NUMBER a qa, Token.mk .OPERATOR o1 q1,
       Token.mk .LEFT_PAREN "(" ql, Token.mk .NUMBER b qb,
       Token.mk .OPERATOR o2 q2, Token.mk .NUMBER c qc,
       Token.mk .RIGHT_PAREN ")" qr, Token.mk .EOF "" qe] =
      [Token.mk .NUMBER a qa, Token.mk .NUMBER b qb, Token.mk .NUMBER c qc,
       Token.mk .OPERATOR o2 q2, Token.mk .OPERATOR o1 q1] := by
    simp [parseToPostfix, parseToPostfixGo, popWhileHigher, popUntilLParen]
  rw [lhs, rhs]
  exact evaluatePostfixGo_congr vars _ _ rfl []

/-- Witness for C7 with `1 + 2 * 3` versus `1 + (2 * 3)`. -/
theorem c7_precedence_law_witness :
    operators "+" = some ⟨1, .left⟩ ∧ operators "*" = some ⟨2, .left⟩ ∧
    (1 : Nat) < 2 ∧
    evaluatePostfix (parseToPostfix
        [Token.mk .NUMBER "1" 0, Token.mk .OPERATOR "+" 1,
         Token.mk .NUMBER "2" 2, Token.mk .OPERATOR "*" 3,
         Token.mk .NUMBER "3" 4, Token.mk .EOF "" 5]) [] =
    evaluatePostfix (parseToPostfix
        [Token.mk .NUMBER "1" 0, Token.mk .OPERATOR "+" 1,
         Token.mk .LEFT_PAREN "(" 2, Token.mk .NUMBER "2" 3,
         Token.mk .OPERATOR "*" 4, Token.mk .NUMBER "3" 5,
         Token.mk .RIGHT_PAREN ")" 6, Token.mk .EOF "" 7]) [] :=
  ⟨rfl, rfl, by omega,
    c7_precedence_law "1" "2" "3" "+" "*" ⟨1, .left⟩ ⟨2, .left⟩ rfl rfl
      (by decide) 0 1 2 3 4 5 0 1 2 3 4 5 6 7 []⟩

/-- Claim C8: for every input whose token sequence passes validation,
the converter output has length `m + k + f` (`m` value tokens, `k`
operator tokens, `f` function tokens), and each value, operator, and
function token of the input occurs in the output exactly as often as in
the input. -/
theorem c8_output_length_counts (s : String)
    (h : (validateSyntax (tokenize s)).1 = true) :
    (parseToPostfix (tokenize s)).length =
      (tokenize s).countP (fun t => t.type == TokenType.NUMBER ||
        t.type == TokenType.VARIABLE || t.type == TokenType.CONSTANT) +
      (tokenize s).countP (fun t => t.type == TokenType.OPERATOR) +
      (tokenize s).countP (fun t => t.type == TokenType.FUNCTION) ∧
    ∀ t ∈ tokenize s, isOutputKind t = true →
      (parseToPostfix (tokenize s)).count t = (tokenize s).count t := by
  obtain ⟨body, p, heq, hne, htw⟩ := tokenize_structure s
  have hms := parseToPostfix_ms_valid (tokenize s) h
  rw [htw] at hms
  constructor
  · have hcard := congrArg Multiset.card hms
    simp only [Multiset.coe_card] at hcard
    rw [hcard, ← List.countP_eq_length_filter, countP_outputKind_split]
    rw [heq]
    simp
  · intro t htm hout
    have hcount := congrArg (Multiset.count t) hms
    simp only [Multiset.coe_count] at hcount
    rw [hcount, List.count_filter hout, heq, List.count_append]
    have htne : t ≠ Token.mk .EOF "" p := by
      intro habs
      rw [habs] at hout
      simp [isOutputKind] at hout
    simp [List.count_cons, htne]

/-- Witness for C8 on the validated input `1+2*3`. -/
theorem c8_output_length_counts_witness :
    (validateSyntax (tokenize "1+2*3")).1 = true ∧
    ((parseToPostfix (tokenize "1+2*3")).length =
      (tokenize "1+2*3").countP (fun t => t.type == TokenType.NUMBER ||
        t.type == TokenType.VARIABLE || t.type == TokenType.CONSTANT) +
      (tokenize "1+2*3").countP (fun t => t.type == TokenType.OPERATOR) +
      (tokenize "1+2*3").countP (fun t => t.type == TokenType.FUNCTION) ∧
    ∀ t ∈ tokenize "1+2*3", isOutputKind t = true →
      (parseToPostfix (tokenize "1+2*3")).count t = (tokenize "1+2*3").count t) :=
  ⟨rfl, c8_output_length_counts "1+2*3" rfl⟩

/-- Claim C10: for every input whose token sequence passes validation,
the converter output contains only NUMBER, VARIABLE, CONSTANT, OPERATOR,
and FUNCTION tokens — never a parenthesis, comma, or EOF token. -/
theorem c10_output_token_kinds (s : String)
    (h : (validateSyntax (tokenize s)).1 = true) :
    ∀ t ∈ parseToPostfix (tokenize s),
      t.type = TokenType.NUMBER ∨ t.type = TokenType.VARIABLE ∨
      t.type = TokenType.CONSTANT ∨ t.type = TokenType.OPERATOR ∨
      t.type = TokenType.FUNCTION := by
  intro t htm
  have hms := parseToPostfix_ms_valid (tokenize s) h
  have hmem : t ∈ ((tokenize s).takeWhile notEOF).filter isOutputKind := by
    rw [← Multiset.mem_coe, ← hms, Multiset.mem_coe]
    exact htm
  have hout := (List.mem_filter.mp hmem).2
  simp only [isOutputKind, Bool.or_eq_true, beq_iff_eq] at hout
  tauto

/-- Witness for C10 on the validated input `sin(1)+2`. -/
theorem c10_output_token_kinds_witness :
    (validateSyntax (tokenize "sin(1)+2")).1 = true ∧
    ∀ t ∈ parseToPostfix (tokenize "sin(1)+2"),
      t.type = TokenType.NUMBER ∨ t.type = TokenType.VARIABLE ∨
      t.type = TokenType.CONSTANT ∨ t.type = TokenType.OPERATOR ∨
      t.type = TokenType.FUNCTION :=
  ⟨rfl, c10_output_token_kinds "sin(1)+2" rfl⟩

/-- Claim C9, as stated, is false: token positions are offsets into the
whitespace-stripped character sequence, not into the original source.
For `" 1"` the NUMBER token carries position 0, but at byte offset 0 of
the original string there is a space; the lexeme sits at offset 1. -/
theorem c9_counterexample_space_offset :
    tokenize " 1" = [Token.mk .NUMBER "1" 0, Token.mk .EOF "" 1] ∧
    (" 1".toList.drop 0).take "1".length ≠ "1".toList ∧
    (" 1".toList.drop 1).take "1".length = "1".toList := by
  refine ⟨rfl, by decide, by decide⟩

/-- Claim C9 amended: every non-EOF token produced by the tokenizer
carries a position equal to the offset of its lexeme in the
whitespace-stripped source: dropping `position` characters from the
stripped input and taking the lexeme's length recovers the lexeme.  (The
offsets coincide with original byte offsets only when no space precedes
the token.) -/
theorem c9_amended_stripped_offsets (s : String) (t : Token)
    (htm : t ∈ tokenize s) (hne : t.type ≠ TokenType.EOF) :
    ((s.toList.filter (fun c => c != ' ')).drop t.position).take t.value.length =
      t.value.toList := by
  have h := tokenizeGo_positions (s.toList.filter (fun c => c != ' ')).length
    (s.toList.filter (fun c => c != ' ')) 0 t htm hne
  simpa using h.2

/-- Witness for the amended C9 at the first token of `1+2`. -/
theorem c9_amended_stripped_offsets_witness :
    Token.mk .NUMBER "1" 0 ∈ tokenize "1+2" ∧
    (("1+2".toList.filter (fun c => c != ' ')).drop 0).take "1".length =
      "1".toList :=
  ⟨by decide,
    c9_amended_stripped_offsets "1+2" (Token.mk .NUMBER "1" 0) (by decide)
      (by decide)⟩

/-- Claim C6: `"2^3^2"` evaluates to `512` (exponentiation groups to the
right, giving `2 ^ (3 ^ 2)`), not `64`. -/
theorem c6_power_right_assoc :
    evaluateExpression "2^3^2" [] = .ok (Value.num 512) ∧
    Value.num 512 ≠ Value.num 64 := by
  constructor
  · with_unfolding_all rfl
  · intro h
    injection h with h
    norm_num at h

end MathExpr
